import Mathlib

/-!
Verification of the subseekr2 subdomain scanner (`src/main.go`).

The program is a concurrent scanner: a fixed pool of workers consumes a
queue of candidate subdomain labels; each worker resolves the candidate to
an IP address, samples TCP-connect latency, probes a caller-supplied port
list, emits at most one result per job, and increments a shared atomic
progress counter exactly once per job.  The orchestrator joins the pool
before closing the result channel, drains the reachable results, and saves
them by merging with the previously stored result file.

Network I/O (DNS lookups and `net.DialTimeout` calls) is nondeterministic,
so the embedding is parameterised by an environment `Env` of oracles giving
the outcome of each call.  Each worker-side function is translated from the Go
source and, in addition to its return value, records the externally visible
actions it performs as a trace of `Event`s, so that claims of the form
"no probing occurs on this path" become statements about the trace.
-/

namespace Subseekr

/-- The constant `maxWorkers` from the Go source (`maxWorkers = 200`). -/
def maxWorkers : Nat := 200

/-- The per-dial timeout, in nanoseconds (`timeout = 2 * time.Second`;
Go `time.Duration` counts nanoseconds). -/
def timeoutNs : Nat := 2000000000

/-- The constant `pingCount` from the Go source (`pingCount = 2`). -/
def pingCount : Nat := 2

/-- The `Result` struct of the Go source.  `avgResponseMs` is `float64`
in Go; it is modelled as `ℚ`.  In this program the divisor of the single
float division is `success ∈ {1, 2}` applied to an integral number of
milliseconds, which binary floating point computes exactly, so `ℚ` is a
faithful model of the values the program actually produces. -/
structure Result where
  host : String
  ipAddress : String
  avgResponseMs : ℚ
  reachable : Bool
  openPorts : List String
deriving DecidableEq, Repr

/-- One address returned by `net.LookupIP`: whether `ip.To4() != nil`
(the address has an IPv4 form) and the text of `ip.String()`. -/
structure IPAddr where
  isV4 : Bool
  str : String
deriving DecidableEq, Repr

/-- Oracles fixing the outcome of every network call the scanner makes.

* `lookupIP host` — outcome of `net.LookupIP(host)`: `none` models a
  non-nil error, `some addrs` a successful return of `addrs`.
* `latencyDial ip i` — outcome of the `i`-th `net.DialTimeout` the latency
  sampler issues against `ip`: `none` is a dial error, `some d` a
  connection established after `d` nanoseconds of elapsed wall-clock time
  (the `time.Since(start)` measurement).
* `portDial host port` — outcome of the single
  `net.DialTimeout` of the port prober to `host:port` for this job: `none` is a dial error,
  `some d` an established connection. -/
structure Env where
  lookupIP : String → Option (List IPAddr)
  latencyDial : String → Nat → Option Nat
  portDial : String → String → Option Nat

/-- Externally visible actions of a worker, recorded in program order. -/
inductive Event where
  /-- A `net.LookupIP(host)` call. -/
  | lookup (host : String)
  /-- A `net.DialTimeout("tcp", ip:port, tmo)` issued by `measureLatency`. -/
  | latencyConn (ip port : String) (tmo : Nat)
  /-- A `net.DialTimeout("tcp", host:port, tmo)` issued by `isPortOpen`. -/
  | portConn (host port : String) (tmo : Nat)
  /-- Sending a `Result` on the results channel. -/
  | emit (r : Result)
  /-- One `updateProgress` call (one `atomic.AddUint32(&totalScanned, 1)`). -/
  | progress
deriving DecidableEq, Repr

/-- The function `isPortOpen` from the Go source: one bounded dial; an error returns
`false`, an established connection is closed and returns `true`. -/
def isPortOpen (env : Env) (host port : String) : Bool :=
  match env.portDial host port with
  | none => false
  | some _ => true

/-- Accumulator of the loop in `measureLatency`: `total` is the running sum of
elapsed times (`time.Duration`, nanoseconds), `success` the count of
successful attempts, `trace` the dials issued so far. -/
structure LatAcc where
  total : Nat
  success : Nat
  trace : List Event
deriving Repr

/-- One iteration of the loop body of `measureLatency`: dial `ip:80` with the
configured timeout; on success add the elapsed time and bump the counter. -/
def latStep (env : Env) (ip : String) (acc : LatAcc) (i : Nat) : LatAcc :=
  let acc := { acc with trace := acc.trace ++ [Event.latencyConn ip "80" timeoutNs] }
  match env.latencyDial ip i with
  | some d => { acc with total := acc.total + d, success := acc.success + 1 }
  | none => acc

/-- The state after the `for i := 0; i < pingCount; i++` loop of
`measureLatency` has run. -/
def measureLatencyRun (env : Env) (ip : String) : LatAcc :=
  (List.range pingCount).foldl (latStep env ip) ⟨0, 0, []⟩

/-- The return value of `measureLatency`:
`float64(total.Milliseconds()) / float64(success)`, and `0` when no
attempt succeeded.  `Duration.Milliseconds()` truncates: it is integer
division of the nanosecond total by `10^6`. -/
def measureLatency (env : Env) (ip : String) : ℚ :=
  let a := measureLatencyRun env ip
  if a.success = 0 then 0
  else ((a.total / 1000000 : ℕ) : ℚ) / (a.success : ℚ)

/-- The `ipv4Addr` selection loop of `worker`: scan `ipAddrs` in order,
take `ip.String()` of the first address with `ip.To4() != nil`; the
variable keeps its zero value `""` when no such address exists. -/
def firstV4Str : List IPAddr → String
  | [] => ""
  | ip :: rest => if ip.isV4 then ip.str else firstV4Str rest

/-- One iteration of the port loop of `worker`: probe `host:port` once and
append `port` to the accumulated `OpenPorts` when the probe succeeds. -/
def portStep (env : Env) (host : String)
    (acc : List String × List Event) (port : String) :
    List String × List Event :=
  if isPortOpen env host port then
    (acc.1 ++ [port], acc.2 ++ [Event.portConn host port timeoutNs])
  else
    (acc.1, acc.2 ++ [Event.portConn host port timeoutNs])

/-- The port-probing section of `worker`: guarded by `len(ports) > 0`, it
probes each requested port once, in order, appending a port to
`result.OpenPorts` exactly when `isPortOpen` returns true.  Returns the
final `OpenPorts` value and the trace of dials issued. -/
def scanPorts (env : Env) (host : String) (ports : List String) :
    List String × List Event :=
  if ports.length > 0 then ports.foldl (portStep env host) ([], [])
  else ([], [])

/-- The body of the `for sub := range jobs` loop of `worker`, for one job `sub`:
resolve `sub.domain`; on lookup error or an empty address list, or when no
IPv4 address is found, only `updateProgress` runs; otherwise measure
latency, probe the requested ports, send the `Result`, and update
progress.  The value is the trace of events the iteration performs. -/
def processJob (env : Env) (domain : String) (ports : List String)
    (sub : String) : List Event :=
  let fullHost := sub ++ "." ++ domain
  Event.lookup fullHost ::
    (match env.lookupIP fullHost with
     | none => [Event.progress]
     | some ipAddrs =>
       if ipAddrs.length = 0 then [Event.progress]
       else
         let ipv4Addr := firstV4Str ipAddrs
         if ipv4Addr = "" then [Event.progress]
         else
           let avgTime := measureLatency env ipv4Addr
           let latTrace := (measureLatencyRun env ipv4Addr).trace
           let scanned := scanPorts env fullHost ports
           latTrace ++ scanned.2 ++
             [Event.emit ⟨fullHost, ipv4Addr, avgTime, true, scanned.1⟩,
              Event.progress])

/-- A whole worker: consume a list of jobs (the jobs this worker receives
from the channel, in pickup order), processing each fully before the
next. -/
def workerRun (env : Env) (domain : String) (ports : List String) :
    List String → List Event
  | [] => []
  | sub :: rest =>
      processJob env domain ports sub ++ workerRun env domain ports rest

/-- Number of `updateProgress` calls in a trace; each one performs one
`atomic.AddUint32(&totalScanned, 1)`. -/
def progressCount (tr : List Event) : Nat :=
  tr.countP (fun e => match e with | Event.progress => true | _ => false)

/-- The results sent on the results channel in a trace, in send order. -/
def emittedResults (tr : List Event) : List Result :=
  tr.filterMap (fun e => match e with | Event.emit r => some r | _ => none)

/-- The latency-sampler dials in a trace, in issue order. -/
def latencyConns (tr : List Event) : List Event :=
  tr.filter (fun e => match e with | Event.latencyConn _ _ _ => true | _ => false)

/-- The port-prober dials in a trace, in issue order. -/
def portConns (tr : List Event) : List Event :=
  tr.filter (fun e => match e with | Event.portConn _ _ _ => true | _ => false)

/-- Total number of `updateProgress` calls across the pool, given the
per-worker job assignment the jobs channel produced. -/
def poolIncrements (env : Env) (domain : String) (ports : List String)
    (assign : List (List String)) : Nat :=
  (assign.map (fun js => progressCount (workerRun env domain ports js))).sum

/-- Final value of the shared counter `totalScanned` after `incs` atomic
increments: the variable is a `uint32` starting at `0`, and
`atomic.AddUint32` wraps modulo `2^32`. -/
def counterAfter (incs : Nat) : Nat := incs % 2 ^ 32

/-! Section: Pool shutdown.

`main` starts `maxWorkers` workers after `wg.Add(1)` for each; every worker
runs `defer wg.Done()`, so `wg.Done` fires exactly once per worker, at
worker return.  After enqueueing the jobs, `main` runs, in program order:
`wg.Wait()` — which returns only once all `maxWorkers` calls to `wg.Done`
have happened, i.e. all workers have returned — then `close(results)`,
then the `for res := range results` drain loop.  The model is a transition
system over the orchestrator-visible state: how many workers have
returned, whether `close(results)` has executed, and whether the drain
loop has started.
-/

/-- Shutdown-relevant state of `main` and the pool. -/
structure MainState where
  /-- Number of workers that have returned (= number of `wg.Done` calls). -/
  workersDone : Nat
  /-- Whether `close(results)` has executed. -/
  resultsClosed : Bool
  /-- Whether the `for res := range results` drain loop has started. -/
  draining : Bool
deriving DecidableEq, Repr

/-- Initial state: all workers running, channel open, aggregator idle. -/
def mainInit : MainState := ⟨0, false, false⟩

/-- Transitions of the shutdown protocol.

* `workerDone` — some running worker returns; its deferred `wg.Done` runs.
* `closeResults` — `main` executes `close(results)`.  It is preceded in
  program order by `wg.Wait()`, which blocks until the wait-group counter
  (incremented `maxWorkers` times by `wg.Add(1)`, decremented once per
  worker return) is zero, hence the guard `workersDone = maxWorkers`.
* `startDrain` — `main` enters the `for res := range results` loop; in
  program order this follows `close(results)`, hence the guard. -/
inductive MainStep : MainState → MainState → Prop
  | workerDone (s : MainState) (h : s.workersDone < maxWorkers) :
      MainStep s ⟨s.workersDone + 1, s.resultsClosed, s.draining⟩
  | closeResults (s : MainState) (hw : s.workersDone = maxWorkers)
      (hc : s.resultsClosed = false) :
      MainStep s ⟨s.workersDone, true, s.draining⟩
  | startDrain (s : MainState) (hc : s.resultsClosed = true)
      (hd : s.draining = false) :
      MainStep s ⟨s.workersDone, s.resultsClosed, true⟩

/-- States the shutdown protocol can reach from `mainInit`. -/
def MainReach (s : MainState) : Prop :=
  Relation.ReflTransGen MainStep mainInit s

/-! Section: Result persistence.

`saveResults` reads `resultFile`; when the read succeeds and the JSON
unmarshals, `existingResults` holds the previously stored sequence,
otherwise it stays at its zero value (the empty slice).  The new results
are appended and the combined sequence is written back.  The file system
interaction is abstracted into the input of the function: `prior` is
`some rs` when the existing file was readable and parsed as `rs`, `none`
otherwise; the return value is the result sequence written back. -/
def saveResults (prior : Option (List Result)) (newResults : List Result) :
    List Result :=
  let existingResults : List Result :=
    match prior with
    | some rs => rs
    | none => []
  existingResults ++ newResults

/-! Section: Port-list parsing.

`parsePorts` works on Go strings (byte/rune sequences); strings are
modelled as `List Char`.  `goSplit` is `strings.Split` with a one-rune
separator, and `trimSpace` is `strings.TrimSpace`.  `goIsSpace` covers the
ASCII and Latin-1 white space recognised by the Go predicate `unicode.IsSpace`
(`'\t'`, `'\n'`, `'\v'`, `'\f'`, `'\r'`, `' '`, U+0085, U+00A0); the
remaining Unicode space categories are not enumerated here, which is
irrelevant to the claims (they only distinguish white space from
non-white-space). -/

/-- White space as in the Go predicate `unicode.IsSpace`, restricted to Latin-1. -/
def goIsSpace (c : Char) : Bool :=
  c = ' ' || c = '\t' || c = '\n' || c = '\x0b' || c = '\x0c' || c = '\r' ||
    c = '\x85' || c = '\xa0'

/-- Go `strings.Split(s, sep)` for a single-rune separator: the segments of
`s` between occurrences of `sep`; the empty string yields `[""]`. -/
def goSplit (sep : Char) : List Char → List (List Char)
  | [] => [[]]
  | c :: rest =>
    if c = sep then [] :: goSplit sep rest
    else
      match goSplit sep rest with
      | [] => [[c]]
      | seg :: segs => (c :: seg) :: segs

/-- Go `strings.TrimSpace`: drop white space from both ends. -/
def trimSpace (s : List Char) : List Char :=
  ((s.dropWhile goIsSpace).reverse.dropWhile goIsSpace).reverse

/-- The function `parsePorts` from the Go source: empty input returns the nil slice;
otherwise split on `','`, trim each part, and append the non-empty
trimmed parts in order. -/
def parsePorts (input : List Char) : List (List Char) :=
  if input = [] then []
  else
    (goSplit ',' input).foldl
      (fun acc p =>
        let trimmed := trimSpace p
        if trimmed = [] then acc else acc ++ [trimmed])
      []

/-! Section: Spec-side definitions.

For refinement-style claims, a second definition written from the words of
the spec, to be compared with the one translated from the source. -/

/-- Modelled from the spec (the wording of claim C4): "the arithmetic mean, in
milliseconds, of the elapsed times of exactly those `s` successful
attempts" — the exact rational mean of the elapsed times of the
successful attempts, each converted to milliseconds without truncation, and `0` when no
attempt succeeds.  `outcomes` is the list of the `pingCount` attempt
outcomes. -/
def specMeanMs (outcomes : List (Option Nat)) : ℚ :=
  let succ := outcomes.filterMap id
  if succ.length = 0 then 0
  else ((succ.sum : ℚ) / 1000000) / (succ.length : ℚ)

/-- The attempt outcomes `measureLatency` sees for `ip` under `env`, in
attempt order. -/
def latencyOutcomes (env : Env) (ip : String) : List (Option Nat) :=
  (List.range pingCount).map (env.latencyDial ip)

/-- Environment in which every network call fails. -/
def envNone : Env :=
  ⟨fun _ => none, fun _ _ => none, fun _ _ => none⟩

/-- Environment for exercising the latency sampler: lookups fail, every
latency dial succeeds after 3 ms (an exact number of milliseconds), port
dials fail. -/
def envLat3ms : Env :=
  ⟨fun _ => none, fun _ _ => some 3000000, fun _ _ => none⟩

/-- Environment exhibiting latency truncation: the first latency dial
succeeds after 1.5 ms (1500000 ns), the second fails. -/
def envLat1500us : Env :=
  ⟨fun _ => none, fun _ i => if i = 0 then some 1500000 else none,
   fun _ _ => none⟩

/-- Environment whose lookups return an IPv6 address followed by an IPv4
address; no dial succeeds. -/
def envV6V4 : Env :=
  ⟨fun _ => some [⟨false, "2606:2800:21f::"⟩, ⟨true, "93.184.215.14"⟩],
   fun _ _ => none, fun _ _ => none⟩

/-- Environment whose lookups return a single IPv4 address and where only
port "443" accepts connections. -/
def envPort443 : Env :=
  ⟨fun _ => some [⟨true, "192.0.2.10"⟩], fun _ _ => none,
   fun _ port => if port = "443" then some 0 else none⟩

end Subseekr

namespace Subseekr

/-! Section: Characterisation lemmas.
-/

lemma latStep_foldl (env : Env) (ip : String) (l : List Nat) (acc : LatAcc) :
    l.foldl (latStep env ip) acc =
      ⟨acc.total + ((l.map (env.latencyDial ip)).filterMap id).sum,
       acc.success + ((l.map (env.latencyDial ip)).filterMap id).length,
       acc.trace ++
         List.replicate l.length (Event.latencyConn ip "80" timeoutNs)⟩ := by
  induction l generalizing acc with
  | nil => simp
  | cons i l ih =>
    simp only [List.foldl_cons, ih, List.map_cons, List.length_cons]
    cases h : env.latencyDial ip i with
    | none =>
      simp [latStep, h, List.replicate_succ, List.append_assoc]
    | some d =>
      simp [latStep, h, List.replicate_succ, List.append_assoc]
      omega

lemma measureLatencyRun_eq (env : Env) (ip : String) :
    measureLatencyRun env ip =
      ⟨((latencyOutcomes env ip).filterMap id).sum,
       ((latencyOutcomes env ip).filterMap id).length,
       List.replicate pingCount (Event.latencyConn ip "80" timeoutNs)⟩ := by
  simp [measureLatencyRun, latStep_foldl, latencyOutcomes]

lemma measureLatency_eq (env : Env) (ip : String) :
    measureLatency env ip =
      if ((latencyOutcomes env ip).filterMap id).length = 0 then 0
      else ((((latencyOutcomes env ip).filterMap id).sum / 1000000 : ℕ) : ℚ) /
        (((latencyOutcomes env ip).filterMap id).length : ℚ) := by
  simp [measureLatency, measureLatencyRun_eq]

lemma portStep_foldl (env : Env) (host : String) (l : List String)
    (acc : List String × List Event) :
    l.foldl (portStep env host) acc =
      (acc.1 ++ l.filter (fun p => isPortOpen env host p),
       acc.2 ++ l.map (fun p => Event.portConn host p timeoutNs)) := by
  induction l generalizing acc with
  | nil => simp
  | cons p l ih =>
    simp only [List.foldl_cons, ih, List.filter_cons, List.map_cons]
    by_cases h : isPortOpen env host p <;>
      simp [portStep, h, List.append_assoc]

lemma scanPorts_eq (env : Env) (host : String) (ports : List String) :
    scanPorts env host ports =
      (ports.filter (fun p => isPortOpen env host p),
       ports.map (fun p => Event.portConn host p timeoutNs)) := by
  cases ports with
  | nil => simp [scanPorts]
  | cons p l =>
    have h : (p :: l).length > 0 := Nat.succ_pos _
    rw [scanPorts, if_pos h, portStep_foldl]
    simp

lemma firstV4Str_eq_find (l : List IPAddr) :
    firstV4Str l =
      (match l.find? (fun a => a.isV4) with
       | some a => a.str
       | none => "") := by
  induction l with
  | nil => rfl
  | cons a l ih =>
    by_cases h : a.isV4 = true
    · rw [firstV4Str, if_pos h, List.find?_cons_of_pos _ h]
    · rw [firstV4Str, if_neg h, List.find?_cons_of_neg _ h, ih]

lemma processJob_lookupErr (env : Env) (d : String) (ports : List String)
    (sub : String) (hl : env.lookupIP (sub ++ "." ++ d) = none) :
    processJob env d ports sub =
      [Event.lookup (sub ++ "." ++ d), Event.progress] := by
  simp [processJob, hl]

lemma processJob_noAddrs (env : Env) (d : String) (ports : List String)
    (sub : String) (hl : env.lookupIP (sub ++ "." ++ d) = some []) :
    processJob env d ports sub =
      [Event.lookup (sub ++ "." ++ d), Event.progress] := by
  simp [processJob, hl]

lemma processJob_noV4 (env : Env) (d : String) (ports : List String)
    (sub : String) (addrs : List IPAddr)
    (hl : env.lookupIP (sub ++ "." ++ d) = some addrs)
    (hv4 : firstV4Str addrs = "") :
    processJob env d ports sub =
      [Event.lookup (sub ++ "." ++ d), Event.progress] := by
  by_cases hlen : addrs.length = 0 <;> simp [processJob, hl, hlen, hv4]

lemma processJob_resolved (env : Env) (d : String) (ports : List String)
    (sub : String) (addrs : List IPAddr)
    (hl : env.lookupIP (sub ++ "." ++ d) = some addrs) (hne : addrs ≠ [])
    (hv4 : firstV4Str addrs ≠ "") :
    processJob env d ports sub =
      Event.lookup (sub ++ "." ++ d) ::
        (List.replicate pingCount
            (Event.latencyConn (firstV4Str addrs) "80" timeoutNs) ++
          (ports.map (fun p => Event.portConn (sub ++ "." ++ d) p timeoutNs) ++
            [Event.emit
               ⟨sub ++ "." ++ d, firstV4Str addrs,
                measureLatency env (firstV4Str addrs), true,
                ports.filter (fun p => isPortOpen env (sub ++ "." ++ d) p)⟩,
             Event.progress])) := by
  have hlen : ¬ addrs.length = 0 := by
    simpa [List.length_eq_zero] using hne
  simp [processJob, hl, hlen, hv4, measureLatencyRun_eq, scanPorts_eq,
    List.append_assoc]

/-! Section: Trace observations.
-/

lemma progressCount_append (a b : List Event) :
    progressCount (a ++ b) = progressCount a + progressCount b :=
  List.countP_append _ _ _

lemma progressCount_cons_lookup (h : String) (tr : List Event) :
    progressCount (Event.lookup h :: tr) = progressCount tr := by
  simp [progressCount, List.countP_cons]

lemma progressCount_replicate_lat (n : Nat) (ip port : String) (t : Nat) :
    progressCount (List.replicate n (Event.latencyConn ip port t)) = 0 := by
  simp [progressCount]

lemma progressCount_map_port (ports : List String) (host : String) (t : Nat) :
    progressCount
      (ports.map (fun p => Event.portConn host p t)) = 0 := by
  simp [progressCount]

lemma emittedResults_append (a b : List Event) :
    emittedResults (a ++ b) = emittedResults a ++ emittedResults b :=
  List.filterMap_append _ _ _

lemma emittedResults_replicate_lat (n : Nat) (ip port : String) (t : Nat) :
    emittedResults (List.replicate n (Event.latencyConn ip port t)) = [] := by
  simp [emittedResults]

lemma emittedResults_map_port (ports : List String) (host : String) (t : Nat) :
    emittedResults (ports.map (fun p => Event.portConn host p t)) = [] := by
  simp [emittedResults]

lemma latencyConns_append (a b : List Event) :
    latencyConns (a ++ b) = latencyConns a ++ latencyConns b :=
  List.filter_append _ _

lemma latencyConns_replicate_lat (n : Nat) (ip port : String) (t : Nat) :
    latencyConns (List.replicate n (Event.latencyConn ip port t)) =
      List.replicate n (Event.latencyConn ip port t) := by
  simp [latencyConns]

lemma latencyConns_map_port (ports : List String) (host : String) (t : Nat) :
    latencyConns (ports.map (fun p => Event.portConn host p t)) = [] := by
  simp [latencyConns]

lemma portConns_append (a b : List Event) :
    portConns (a ++ b) = portConns a ++ portConns b :=
  List.filter_append _ _

lemma portConns_replicate_lat (n : Nat) (ip port : String) (t : Nat) :
    portConns (List.replicate n (Event.latencyConn ip port t)) = [] := by
  simp [portConns]

lemma portConns_map_port (ports : List String) (host : String) (t : Nat) :
    portConns (ports.map (fun p => Event.portConn host p t)) =
      ports.map (fun p => Event.portConn host p t) := by
  simp [portConns]

lemma progressCount_processJob (env : Env) (d : String) (ports : List String)
    (sub : String) : progressCount (processJob env d ports sub) = 1 := by
  rcases h : env.lookupIP (sub ++ "." ++ d) with _ | addrs
  · simp [processJob_lookupErr env d ports sub h, progressCount]
  · by_cases hv4 : firstV4Str addrs = ""
    · simp [processJob_noV4 env d ports sub addrs h hv4, progressCount]
    · have hne : addrs ≠ [] := by
        rintro rfl
        exact hv4 rfl
      rw [processJob_resolved env d ports sub addrs h hne hv4,
        progressCount_cons_lookup, progressCount_append,
        progressCount_replicate_lat, progressCount_append,
        progressCount_map_port]
      simp [progressCount, List.countP_cons]

lemma emittedResults_resolved (env : Env) (d : String) (ports : List String)
    (sub : String) (addrs : List IPAddr)
    (hl : env.lookupIP (sub ++ "." ++ d) = some addrs) (hne : addrs ≠ [])
    (hv4 : firstV4Str addrs ≠ "") :
    emittedResults (processJob env d ports sub) =
      [⟨sub ++ "." ++ d, firstV4Str addrs,
        measureLatency env (firstV4Str addrs), true,
        ports.filter (fun p => isPortOpen env (sub ++ "." ++ d) p)⟩] := by
  rw [processJob_resolved env d ports sub addrs hl hne hv4]
  simp [emittedResults, emittedResults_append, emittedResults_replicate_lat,
    emittedResults_map_port]

lemma latencyConns_resolved (env : Env) (d : String) (ports : List String)
    (sub : String) (addrs : List IPAddr)
    (hl : env.lookupIP (sub ++ "." ++ d) = some addrs) (hne : addrs ≠ [])
    (hv4 : firstV4Str addrs ≠ "") :
    latencyConns (processJob env d ports sub) =
      List.replicate pingCount
        (Event.latencyConn (firstV4Str addrs) "80" timeoutNs) := by
  rw [processJob_resolved env d ports sub addrs hl hne hv4]
  simp [latencyConns, latencyConns_append, latencyConns_replicate_lat,
    latencyConns_map_port]

lemma portConns_resolved (env : Env) (d : String) (ports : List String)
    (sub : String) (addrs : List IPAddr)
    (hl : env.lookupIP (sub ++ "." ++ d) = some addrs) (hne : addrs ≠ [])
    (hv4 : firstV4Str addrs ≠ "") :
    portConns (processJob env d ports sub) =
      ports.map (fun p => Event.portConn (sub ++ "." ++ d) p timeoutNs) := by
  rw [processJob_resolved env d ports sub addrs hl hne hv4]
  simp [portConns, portConns_append, portConns_replicate_lat,
    portConns_map_port]

lemma progressCount_workerRun (env : Env) (d : String) (ports : List String)
    (l : List String) : progressCount (workerRun env d ports l) = l.length := by
  induction l with
  | nil => rfl
  | cons s l ih =>
    simp [workerRun, progressCount_append, progressCount_processJob, ih]
    omega

lemma poolIncrements_eq (env : Env) (d : String) (ports : List String)
    (assign : List (List String)) :
    poolIncrements env d ports assign = assign.flatten.length := by
  simp [poolIncrements, progressCount_workerRun, List.length_flatten]

/-! Section: Shutdown reachability helpers.
-/

lemma mainReach_workers (k : Nat) (hk : k ≤ maxWorkers) :
    MainReach ⟨k, false, false⟩ := by
  induction k with
  | zero => exact Relation.ReflTransGen.refl
  | succ n ih =>
    exact Relation.ReflTransGen.tail (ih (Nat.le_of_succ_le hk))
      (MainStep.workerDone ⟨n, false, false⟩ (Nat.lt_of_succ_le hk))

lemma mainReach_final : MainReach ⟨maxWorkers, true, true⟩ := by
  have h1 := mainReach_workers maxWorkers le_rfl
  have h2 := Relation.ReflTransGen.tail h1
    (MainStep.closeResults ⟨maxWorkers, false, false⟩ rfl rfl)
  exact Relation.ReflTransGen.tail h2
    (MainStep.startDrain ⟨maxWorkers, true, false⟩ rfl rfl)

/-! Section: Parsing helpers.
-/

lemma parsePorts_foldl (l : List (List Char)) (acc : List (List Char)) :
    l.foldl
      (fun acc p =>
        let trimmed := trimSpace p
        if trimmed = [] then acc else acc ++ [trimmed]) acc =
      acc ++ (l.map trimSpace).filter (fun s => s ≠ []) := by
  induction l generalizing acc with
  | nil => simp
  | cons p l ih =>
    simp only [List.foldl_cons, List.map_cons, List.filter_cons]
    by_cases h : trimSpace p = [] <;> simp [h, ih, List.append_assoc]

/-! Section: The claims.
-/

/-- Claim C1, corrected.  Each job causes exactly one increment of the
progress counter, whatever its outcome, so the total number of increments
across any distribution of the `N` candidates over the workers is exactly
`N`; but the counter is a `uint32` updated by `atomic.AddUint32`, so its
value after pool shutdown is `N` modulo `2^32` — equal to `N` exactly
when `N < 2^32`, and not for all `N` as the claim states. -/
theorem claim1_progress_total (env : Env) (d : String) (ports : List String)
    (assign : List (List String)) (candidates : List String)
    (hperm : assign.flatten.Perm candidates) :
    counterAfter (poolIncrements env d ports assign) =
      candidates.length % 2 ^ 32 ∧
    ∀ sub, progressCount (processJob env d ports sub) = 1 := by
  constructor
  · rw [counterAfter, poolIncrements_eq, hperm.length_eq]
  · intro sub
    exact progressCount_processJob env d ports sub

/-- Witness for C1: three candidates split over two workers; the counter
reads `3 = 3 % 2^32` after shutdown. -/
theorem claim1_progress_total_witness :
    ([["a"], ["b", "c"]] : List (List String)).flatten.Perm
      ["a", "b", "c"] ∧
    counterAfter
        (poolIncrements envNone "example.com" [] [["a"], ["b", "c"]]) =
      (["a", "b", "c"] : List String).length % 2 ^ 32 := by
  have hperm : ([["a"], ["b", "c"]] : List (List String)).flatten.Perm
      ["a", "b", "c"] := by
    rw [show ([["a"], ["b", "c"]] : List (List String)).flatten =
      ["a", "b", "c"] from rfl]
  exact ⟨hperm,
    (claim1_progress_total envNone "example.com" [] _ _ hperm).1⟩

/-- Counterexample for claim C1: with `2^32` candidates handed to a single
worker, every job increments the counter once, yet after shutdown the
wrapped `uint32` counter reads `0`, not `N = 2^32`. -/
theorem claim1_counterexample :
    ([List.replicate (2 ^ 32) "a"] : List (List String)).flatten.Perm
      (List.replicate (2 ^ 32) "a") ∧
    counterAfter
        (poolIncrements envNone "example.com" []
          [List.replicate (2 ^ 32) "a"]) ≠
      (List.replicate (2 ^ 32) "a").length := by
  have hj : ([List.replicate (2 ^ 32) "a"] : List (List String)).flatten =
      List.replicate (2 ^ 32) "a" := by
    rw [List.flatten_cons, List.flatten_nil, List.append_nil]
  constructor
  · rw [hj]
  · rw [counterAfter, poolIncrements_eq, hj, List.length_replicate,
      Nat.mod_self]
    norm_num

/-- Claim C2: pool shutdown is a barrier.  In every state the shutdown
protocol of `main` can reach, the result channel is closed only if all
`maxWorkers` workers have returned, and the aggregator drains only after
the channel is closed — so the aggregator never observes the channel as
closed while a worker could still produce a result. -/
theorem claim2_shutdown_barrier (s : MainState) (h : MainReach s) :
    (s.resultsClosed = true → s.workersDone = maxWorkers) ∧
    (s.draining = true → s.resultsClosed = true) := by
  induction h with
  | refl =>
    constructor <;> intro hx <;> simp [mainInit] at hx
  | tail _ step ih =>
    cases step with
    | workerDone hlt =>
      refine ⟨fun hc => ?_, ih.2⟩
      rw [ih.1 hc] at hlt
      exact absurd hlt (lt_irrefl _)
    | closeResults hw hc =>
      exact ⟨fun _ => hw, fun _ => rfl⟩
    | startDrain hc hd =>
      exact ⟨fun h2 => ih.1 h2, fun _ => hc⟩

/-- Witness for C2: the fully shut down state (all workers returned,
channel closed, aggregator draining) is reachable, and the theorem applies
to it. -/
theorem claim2_shutdown_barrier_witness :
    MainReach ⟨maxWorkers, true, true⟩ ∧
    (⟨maxWorkers, true, true⟩ : MainState).workersDone = maxWorkers ∧
    (⟨maxWorkers, true, true⟩ : MainState).resultsClosed = true :=
  ⟨mainReach_final,
   (claim2_shutdown_barrier _ mainReach_final).1 rfl,
   (claim2_shutdown_barrier _ mainReach_final).2 rfl⟩

/-- Claim C3: when resolution fails (lookup error or zero addresses), the
whole trace of the job is the lookup followed by the progress increment: no
result is emitted, no latency dial and no port dial happens, exactly one
progress increment is recorded, and the worker goes on to process the
remaining jobs. -/
theorem claim3_resolution_failure_local (env : Env) (d : String)
    (ports : List String) (sub : String) (rest : List String)
    (h : env.lookupIP (sub ++ "." ++ d) = none ∨
      env.lookupIP (sub ++ "." ++ d) = some []) :
    processJob env d ports sub =
      [Event.lookup (sub ++ "." ++ d), Event.progress] ∧
    emittedResults (processJob env d ports sub) = [] ∧
    latencyConns (processJob env d ports sub) = [] ∧
    portConns (processJob env d ports sub) = [] ∧
    progressCount (processJob env d ports sub) = 1 ∧
    workerRun env d ports (sub :: rest) =
      processJob env d ports sub ++ workerRun env d ports rest := by
  have htr : processJob env d ports sub =
      [Event.lookup (sub ++ "." ++ d), Event.progress] := by
    rcases h with h | h
    · exact processJob_lookupErr env d ports sub h
    · exact processJob_noAddrs env d ports sub h
  refine ⟨htr, ?_, ?_, ?_, ?_, rfl⟩ <;> rw [htr] <;> rfl

/-- Witness for C3: a concrete failing lookup. -/
theorem claim3_resolution_failure_local_witness :
    processJob envNone "example.com" ["80"] "www" =
      [Event.lookup ("www" ++ "." ++ "example.com"), Event.progress] ∧
    emittedResults (processJob envNone "example.com" ["80"] "www") = [] ∧
    latencyConns (processJob envNone "example.com" ["80"] "www") = [] ∧
    portConns (processJob envNone "example.com" ["80"] "www") = [] ∧
    progressCount (processJob envNone "example.com" ["80"] "www") = 1 ∧
    workerRun envNone "example.com" ["80"] ["www", "mail"] =
      processJob envNone "example.com" ["80"] "www" ++
        workerRun envNone "example.com" ["80"] ["mail"] :=
  claim3_resolution_failure_local envNone "example.com" ["80"] "www" ["mail"]
    (Or.inl rfl)

/-- Claim C4, corrected.  The zero-success case returns exactly `0`, and
failed attempts contribute neither to the sum nor to the divisor; but
when `s ≥ 1` the code divides `total.Milliseconds()` — the *total*
elapsed time truncated to whole milliseconds — by `s`, which equals the
exact arithmetic mean of the elapsed times of the successes only when
that total is a whole number of milliseconds (e.g. whenever `10^6 ∣`
the nanosecond total, the second conjunct). -/
theorem claim4_latency_mean (env : Env) (ip : String) :
    (measureLatency env ip =
      if ((latencyOutcomes env ip).filterMap id).length = 0 then 0
      else ((((latencyOutcomes env ip).filterMap id).sum / 1000000 : ℕ) : ℚ) /
        (((latencyOutcomes env ip).filterMap id).length : ℚ)) ∧
    ((1000000 : ℕ) ∣ ((latencyOutcomes env ip).filterMap id).sum →
      measureLatency env ip = specMeanMs (latencyOutcomes env ip)) := by
  refine ⟨measureLatency_eq env ip, fun hdvd => ?_⟩
  rw [measureLatency_eq]
  by_cases h0 : ((latencyOutcomes env ip).filterMap id).length = 0
  · simp [specMeanMs, h0]
  · rw [if_neg h0, Nat.cast_div hdvd (by norm_num)]
    simp only [specMeanMs, h0, if_neg, Nat.cast_ofNat]
    norm_num

/-- Witness for C4: two successful 3 ms attempts; the divisibility
hypothesis holds and the returned value equals the exact mean. -/
theorem claim4_latency_mean_witness :
    (1000000 : ℕ) ∣
      ((latencyOutcomes envLat3ms "198.51.100.7").filterMap id).sum ∧
    measureLatency envLat3ms "198.51.100.7" =
      specMeanMs (latencyOutcomes envLat3ms "198.51.100.7") := by
  have hdvd : (1000000 : ℕ) ∣
      ((latencyOutcomes envLat3ms "198.51.100.7").filterMap id).sum := by
    exact ⟨6, by simp [latencyOutcomes, envLat3ms, pingCount,
      List.range_succ]⟩
  exact ⟨hdvd, (claim4_latency_mean envLat3ms "198.51.100.7").2 hdvd⟩

/-- Counterexample for claim C4: a single successful attempt of 1.5 ms
(1500000 ns).  The exact mean of the successful attempts is 1.5 ms, but
the code truncates the total to 1 ms before dividing and returns 1. -/
theorem claim4_counterexample :
    measureLatency envLat1500us "203.0.113.5" = 1 ∧
    specMeanMs (latencyOutcomes envLat1500us "203.0.113.5") = 3 / 2 ∧
    measureLatency envLat1500us "203.0.113.5" ≠
      specMeanMs (latencyOutcomes envLat1500us "203.0.113.5") := by
  have hout : latencyOutcomes envLat1500us "203.0.113.5" =
      [some 1500000, none] := by
    simp [latencyOutcomes, envLat1500us, pingCount, List.range_succ]
  have h1 : measureLatency envLat1500us "203.0.113.5" = 1 := by
    rw [measureLatency_eq, hout]
    norm_num [List.filterMap_cons]
  have h2 : specMeanMs (latencyOutcomes envLat1500us "203.0.113.5") =
      3 / 2 := by
    rw [hout]
    simp [specMeanMs]
    norm_num
  refine ⟨h1, h2, ?_⟩
  rw [h1, h2]
  norm_num

/-- Claim C5: when the lookup returns a non-empty address list whose
entries print non-empty strings, the worker selects the first IPv4
address as the `ipAddress` of the emitted result; when the list has no IPv4
address the job is treated as unresolved — its whole trace is the lookup
followed by the progress increment (so no result, no latency dial, no
port dial). -/
theorem claim5_first_ipv4 (env : Env) (d : String) (ports : List String)
    (sub : String) (addrs : List IPAddr)
    (hl : env.lookupIP (sub ++ "." ++ d) = some addrs) (hne : addrs ≠ [])
    (hs : ∀ a ∈ addrs, a.str ≠ "") :
    (match addrs.find? (fun a => a.isV4) with
     | some a =>
         (emittedResults (processJob env d ports sub)).map Result.ipAddress =
           [a.str]
     | none =>
         processJob env d ports sub =
           [Event.lookup (sub ++ "." ++ d), Event.progress]) := by
  cases hf : addrs.find? (fun a => a.isV4) with
  | none =>
    have hv4 : firstV4Str addrs = "" := by
      rw [firstV4Str_eq_find, hf]
    exact processJob_noV4 env d ports sub addrs hl hv4
  | some a =>
    have ha : a ∈ addrs := List.mem_of_find?_eq_some hf
    have hv4 : firstV4Str addrs = a.str := by
      rw [firstV4Str_eq_find, hf]
    have hv4ne : firstV4Str addrs ≠ "" := by
      rw [hv4]
      exact hs a ha
    rw [emittedResults_resolved env d ports sub addrs hl hne hv4ne]
    simp [hv4]

/-- Witness for C5: a lookup returning an IPv6 address and then an IPv4
address; the emitted result carries the IPv4 one. -/
theorem claim5_first_ipv4_witness :
    (emittedResults (processJob envV6V4 "example.com" [] "www")).map
      Result.ipAddress = ["93.184.215.14"] := by
  have h := claim5_first_ipv4 envV6V4 "example.com" [] "www"
    [⟨false, "2606:2800:21f::"⟩, ⟨true, "93.184.215.14"⟩] rfl
    (by decide) (by decide)
  simpa using h

/-- Claim C6: for a resolved job with a non-empty requested port list,
each requested port is dialled exactly once, in the order the caller
gave, the
`openPorts` of the emitted result is the ordered sublist of the requested
ports on which the probe succeeded, and the probe reports a port open
exactly when its single dial succeeded (any error maps to false). -/
theorem claim6_port_probing (env : Env) (d : String) (sub : String)
    (ports : List String) (addrs : List IPAddr)
    (hl : env.lookupIP (sub ++ "." ++ d) = some addrs) (hne : addrs ≠ [])
    (hv4 : firstV4Str addrs ≠ "") (_hp : ports ≠ []) :
    portConns (processJob env d ports sub) =
      ports.map (fun p => Event.portConn (sub ++ "." ++ d) p timeoutNs) ∧
    (emittedResults (processJob env d ports sub)).map Result.openPorts =
      [ports.filter (fun p => isPortOpen env (sub ++ "." ++ d) p)] ∧
    ∀ p, isPortOpen env (sub ++ "." ++ d) p =
      (env.portDial (sub ++ "." ++ d) p).isSome := by
  refine ⟨portConns_resolved env d ports sub addrs hl hne hv4, ?_, ?_⟩
  · rw [emittedResults_resolved env d ports sub addrs hl hne hv4]
    simp
  · intro p
    cases h : env.portDial (sub ++ "." ++ d) p <;> simp [isPortOpen, h]

/-- Witness for C6: ports "80" and "443" requested; only "443" accepts,
so both are dialled in order and `openPorts` is exactly `["443"]`. -/
theorem claim6_port_probing_witness :
    portConns (processJob envPort443 "example.com" ["80", "443"] "api") =
      [Event.portConn ("api" ++ "." ++ "example.com") "80" timeoutNs,
       Event.portConn ("api" ++ "." ++ "example.com") "443" timeoutNs] ∧
    (emittedResults
        (processJob envPort443 "example.com" ["80", "443"] "api")).map
      Result.openPorts = [["443"]] := by
  have h := claim6_port_probing envPort443 "example.com" "api"
    ["80", "443"] [⟨true, "192.0.2.10"⟩] rfl (by decide) (by decide)
    (by decide)
  refine ⟨by simpa using h.1, ?_⟩
  rw [h.2.1]
  simp [isPortOpen, envPort443]

/-- Claim C7: for a resolved job with zero requested ports, the emitted
result has `reachable = true` and empty `openPorts`; and in general an
`openPorts` of an emitted result is non-empty only when the requested port
list is non-empty. -/
theorem claim7_zero_ports (env : Env) (d : String) (sub : String)
    (addrs : List IPAddr)
    (hl : env.lookupIP (sub ++ "." ++ d) = some addrs) (hne : addrs ≠ [])
    (hv4 : firstV4Str addrs ≠ "") :
    (emittedResults (processJob env d [] sub)).map
      (fun r => (r.reachable, r.openPorts)) = [(true, ([] : List String))] ∧
    ∀ ports r, r ∈ emittedResults (processJob env d ports sub) →
      r.openPorts ≠ [] → ports ≠ [] := by
  constructor
  · rw [emittedResults_resolved env d [] sub addrs hl hne hv4]
    simp
  · intro ports r hr hop
    rw [emittedResults_resolved env d ports sub addrs hl hne hv4] at hr
    simp at hr
    rintro rfl
    rw [hr] at hop
    simp at hop

/-- Witness for C7: a resolved job with no requested ports emits one
result, reachable and with empty `openPorts`. -/
theorem claim7_zero_ports_witness :
    (emittedResults (processJob envPort443 "example.com" [] "www")).map
      (fun r => (r.reachable, r.openPorts)) = [(true, ([] : List String))] :=
  (claim7_zero_ports envPort443 "example.com" "www" [⟨true, "192.0.2.10"⟩]
    rfl (by decide) (by decide)).1

/-- Claim C8: result persistence appends and merges, it does not replace:
the written sequence is the previously stored sequence (when the file was
readable and parsed) followed by the new results in order, and just the
new results when no prior sequence could be read. -/
theorem claim8_save_merge (prior newResults : List Result) :
    saveResults (some prior) newResults = prior ++ newResults ∧
    saveResults none newResults = newResults := by
  constructor <;> simp [saveResults]

/-- Claim C9: for a resolved job the latency sampler issues exactly
`pingCount = 2` sequential dials, each to the fixed probe port "80" with
the configured timeout, and this is independent of the port list the
caller requested. -/
theorem claim9_latency_probes (env : Env) (d : String) (sub : String)
    (ports : List String) (addrs : List IPAddr)
    (hl : env.lookupIP (sub ++ "." ++ d) = some addrs) (hne : addrs ≠ [])
    (hv4 : firstV4Str addrs ≠ "") :
    latencyConns (processJob env d ports sub) =
      List.replicate pingCount
        (Event.latencyConn (firstV4Str addrs) "80" timeoutNs) ∧
    pingCount = 2 ∧ timeoutNs = 2000000000 ∧
    ∀ ports₂, latencyConns (processJob env d ports₂ sub) =
      latencyConns (processJob env d ports sub) := by
  refine ⟨latencyConns_resolved env d ports sub addrs hl hne hv4, rfl, rfl,
    fun ports₂ => ?_⟩
  rw [latencyConns_resolved env d ports₂ sub addrs hl hne hv4,
    latencyConns_resolved env d ports sub addrs hl hne hv4]

/-- Witness for C9: on a resolved job the sampler dials "80" twice with
the 2-second timeout even though only port "443" was requested. -/
theorem claim9_latency_probes_witness :
    latencyConns (processJob envPort443 "example.com" ["443"] "www") =
      [Event.latencyConn "192.0.2.10" "80" 2000000000,
       Event.latencyConn "192.0.2.10" "80" 2000000000] := by
  have h := claim9_latency_probes envPort443 "example.com" "www" ["443"]
    [⟨true, "192.0.2.10"⟩] rfl (by decide) (by decide)
  rw [h.1]
  decide

/-- Claim C10: `parsePorts` returns the comma-separated segments of its
input, trimmed of surrounding white space, with empty segments dropped,
in their original order; the empty input yields the empty list, and so
does any input whose comma-separated segments are all white space. -/
theorem claim10_parse_ports :
    (∀ input, parsePorts input =
      ((goSplit ',' input).map trimSpace).filter (fun s => s ≠ [])) ∧
    parsePorts [] = [] ∧
    (∀ input, (∀ s ∈ goSplit ',' input, trimSpace s = []) →
      parsePorts input = []) := by
  have h1 : ∀ input, parsePorts input =
      ((goSplit ',' input).map trimSpace).filter (fun s => s ≠ []) := by
    intro input
    by_cases h : input = []
    · subst h
      decide
    · rw [parsePorts, if_neg h, parsePorts_foldl]
      simp
  refine ⟨h1, by decide, fun input h => ?_⟩
  rw [h1]
  rw [List.filter_eq_nil_iff]
  intro s hs
  rcases List.mem_map.mp hs with ⟨t, ht, rfl⟩
  simp [h t ht]

/-- Witness for C10: an input of only commas and white space parses to
the empty port list. -/
theorem claim10_parse_ports_witness :
    (∀ s ∈ goSplit ',' [' ', ',', '\t', ' ', ','], trimSpace s = []) ∧
    parsePorts [' ', ',', '\t', ' ', ','] = [] :=
  ⟨by decide,
   claim10_parse_ports.2.2 [' ', ',', '\t', ' ', ','] (by decide)⟩

end Subseekr
